import Mathlib

/-!
Verification development for the checklist backend in `api/index.py`.

The Python handlers are shallowly embedded as pure Lean functions:

* Python dicts become association lists (`Dict α`) with operations
  (`dget`, `dset`, `derase`) mirroring `d[k]`, `d[k] = v` and `del d[k]`
  (in-place update keeps the key's position, a fresh key is appended,
  exactly as CPython preserves insertion order).
* Python's lexicographic string comparison `a > b` becomes `pyStrGt`,
  comparing code points of the underlying character lists.
* `datetime` values (always midnight-normalised in the source) become
  integer day ordinals; `strptime`/`strftime` for `%Y-%m-%d` become
  `parseYMD`/`formatYMD` via the standard civil-calendar conversion,
  so that subtracting two parsed dates yields the calendar-day count
  that `(a - b).days` produces.
* The Firestore collections become association lists of documents keyed
  by document id; `firestore.SERVER_TIMESTAMP` becomes `TStamp.server`.
-/

/-- Python dict modelled as an insertion-ordered association list. -/
abbrev Dict (α : Type) := List (String × α)

/-- `d.get(k)` / `d[k]`: the value stored under key `k`, if any. -/
def dget {α : Type} : Dict α → String → Option α
  | [], _ => none
  | (k, v) :: rest, key => if k = key then some v else dget rest key

/-- `k in d`. -/
def dmem {α : Type} (d : Dict α) (k : String) : Bool :=
  (dget d k).isSome

/-- `d[k] = v`: replace in place if the key exists, else append. -/
def dset {α : Type} (d : Dict α) (k : String) (v : α) : Dict α :=
  if dmem d k then d.map (fun p => if p.1 = k then (k, v) else p)
  else d ++ [(k, v)]

/-- `del d[k]`. -/
def derase {α : Type} (d : Dict α) (k : String) : Dict α :=
  d.filter (fun p => !(p.1 = k : Bool))

/-- Python's `>` on strings restricted to their character lists:
lexicographic comparison of code points. -/
def pyGtChars : List Char → List Char → Bool
  | [], _ => false
  | _ :: _, [] => true
  | c :: cs, d :: ds => if c = d then pyGtChars cs ds else decide (d < c)

/-- Python's lexicographic `a > b` on strings. -/
def pyStrGt (a b : String) : Bool :=
  pyGtChars a.data b.data

/-- One decimal digit as a character. -/
def digitChar (n : Nat) : Char :=
  match n with
  | 0 => '0' | 1 => '1' | 2 => '2' | 3 => '3' | 4 => '4'
  | 5 => '5' | 6 => '6' | 7 => '7' | 8 => '8' | _ => '9'

/-- Decimal digits of `n` (most significant first), fuelled so that the
recursion is structural; the fuel `n + 1` always suffices. -/
def natDigitsAux : Nat → Nat → List Char → List Char
  | 0, _, acc => acc
  | fuel + 1, n, acc =>
    if n < 10 then digitChar n :: acc
    else natDigitsAux fuel (n / 10) (digitChar (n % 10) :: acc)

/-- Decimal representation of a natural number. -/
def natStr (n : Nat) : List Char := natDigitsAux (n + 1) n []

/-- Left-pad with `'0'` to width `w` (as `%02d` / `%04d` do). -/
def padZero (w : Nat) (l : List Char) : List Char :=
  List.replicate (w - l.length) '0' ++ l

/-- Numeric value of a string of decimal digits. -/
def digitsVal (l : List Char) : Int :=
  (l.foldl (fun a c => a * 10 + (c.toNat - 48)) 0 : Nat)

/-- Split a character list at `'-'` separators (the `%Y-%m-%d` layout). -/
def splitDash : List Char → List (List Char)
  | [] => [[]]
  | c :: cs =>
    let r := splitDash cs
    if c = '-' then [] :: r
    else
      match r with
      | [] => [[c]]
      | h :: t => (c :: h) :: t

/-- Day ordinal of a proleptic-Gregorian civil date (days since
1970-01-01); all divisors are positive so `Int` division is floor
division, as in Python. -/
def daysFromCivil (y m d : Int) : Int :=
  let y' := if m ≤ 2 then y - 1 else y
  let era := y' / 400
  let yoe := y' - era * 400
  let mp := (m + 9) % 12
  let doy := (153 * mp + 2) / 5 + d - 1
  let doe := yoe * 365 + yoe / 4 - yoe / 100 + doy
  era * 146097 + doe - 719468

/-- Inverse of `daysFromCivil`: the civil date of a day ordinal. -/
def civilFromDays (z0 : Int) : Int × Int × Int :=
  let z := z0 + 719468
  let era := z / 146097
  let doe := z - era * 146097
  let yoe := (doe - doe / 1460 + doe / 36524 - doe / 146096) / 365
  let y := yoe + era * 400
  let doy := doe - (365 * yoe + yoe / 4 - yoe / 100)
  let mp := (5 * doy + 2) / 153
  let d := doy - (153 * mp + 2) / 5 + 1
  let m := if mp < 10 then mp + 3 else mp - 9
  (if m ≤ 2 then y + 1 else y, m, d)

/-- `datetime.strptime(s, '%Y-%m-%d')` as a day ordinal (midnight is
implicit: the source normalises time-of-day to `00:00:00` before
subtracting, so a datetime is just its ordinal). -/
def parseYMD (s : String) : Int :=
  match splitDash s.data with
  | [ys, ms, ds] => daysFromCivil (digitsVal ys) (digitsVal ms) (digitsVal ds)
  | _ => 0

/-- `dt.strftime('%Y-%m-%d')` of a day ordinal. -/
def formatYMD (z : Int) : String :=
  let c := civilFromDays z
  String.mk (padZero 4 (natStr c.1.toNat) ++ ('-' :: padZero 2 (natStr c.2.1.toNat))
    ++ ('-' :: padZero 2 (natStr c.2.2.toNat)))

/-- The timestamps the handlers store: either the Firestore
`SERVER_TIMESTAMP` sentinel or some previously materialised instant. -/
inductive TStamp where
  | server
  | instant (t : Nat)
  deriving DecidableEq, Repr

/-- One user's entry inside `checked[task_id]`:
`{timestamp, checked, note}` as written by `toggle_check`. -/
structure Entry where
  timestamp : TStamp
  checked : Bool
  note : String
  deriving DecidableEq, Repr

/-- A master-list task: `{'id': ..., 'periodDays': ...}`; `periodDays`
absent or JSON `null` is `none`. -/
structure Item where
  id : String
  periodDays : Option Int
  deriving DecidableEq, Repr

/-- A `checklists/<date>` document; only the fields the handlers touch
are modelled.  An absent `checked` field behaves as the empty dict
(`data.get('checked', {})`), so it is represented as `[]`; the `items`
field's presence matters (`'items' in data`), hence the `Option`. -/
structure RecordDoc where
  date : Option String
  items : Option (List Item)
  checked : Dict (Dict Entry)
  lastUpdated : Option TStamp
  deriving DecidableEq, Repr

/-- The due-date evaluation inlined identically in `get_checklist`
(lines 156–178) and `get_calendar_summary` (lines 478–499):
`is_due = True`; if `periodDays` is non-null and positive and a truthy
last-completion string exists, the task is hidden exactly when
`days_since < periodDays`, where `days_since` is the midnight-normalised
day difference. -/
def isDue (periodDays : Option Int) (lastStr : Option String) (target : Int) : Bool :=
  match periodDays with
  | none => true
  | some p =>
    if 0 < p then
      match lastStr with
      | none => true
      | some s =>
        if s = "" then true
        else
          let days_since := target - parseYMD s
          if days_since < p then false else true
    else true

/-- `get_checklist`'s missing-record synthesis: keep exactly the master
items the evaluator judges due (lines 153–181). -/
def filteredItems (masterItems : List Item) (lastCompletions : Dict String)
    (target : Int) : List Item :=
  masterItems.filter (fun item => isDue item.periodDays (dget lastCompletions item.id) target)

/-- `get_calendar_summary`'s per-day due counter (lines 475–502). -/
def itemsDueCount (masterItems : List Item) (lastCompletions : Dict String)
    (target : Int) : Nat :=
  masterItems.foldl
    (fun n item => if isDue item.periodDays (dget lastCompletions item.id) target then n + 1 else n)
    0

/-- The index update on lines 119–120: store `doc_date` when the task is
new to the index or `doc_date > last_completions[item_id]`. -/
def updateLast (acc : Dict String) (item_id doc_date : String) : Dict String :=
  match dget acc item_id with
  | none => dset acc item_id doc_date
  | some prev => if pyStrGt doc_date prev then dset acc item_id doc_date else acc

/-- `fetch_all_last_completions` (lines 104–123), which is also the body
of `GET /api/checklist/last-completions` (lines 310–339): for every
record and every `item_id` in its `checked` map, if the user-map is
truthy (non-empty), keep the maximal document date. -/
def fetchAllLastCompletions (records : Dict RecordDoc) : Dict String :=
  records.foldl
    (fun acc r =>
      r.2.checked.foldl
        (fun acc2 p => if p.2.isEmpty then acc2 else updateLast acc2 p.1 r.1)
        acc)
    []

/-- Modelled from the spec for refinement comparison (§4.1): same scan,
but a record counts as a completion only when some user entry has
`checked == true`, not merely when the user-map is non-empty. -/
def fetchAllLastCompletionsSpec (records : Dict RecordDoc) : Dict String :=
  records.foldl
    (fun acc r =>
      r.2.checked.foldl
        (fun acc2 p =>
          if p.2.any (fun q => q.2.checked) then updateLast acc2 p.1 r.1 else acc2)
        acc)
    []

/-- A day's summary dict as built on lines 509–516 and mutated on lines
523–546; the field set is fixed throughout, so it is a structure. -/
structure DaySummary where
  submitted : Bool
  total_checked : Nat
  users : Dict Nat
  total_due : Nat
  deriving DecidableEq, Repr

/-- The JSON value types occurring in a day-summary dict. -/
inductive SVal where
  | b : Bool → SVal
  | n : Nat → SVal
  | m : Dict Nat → SVal
  deriving DecidableEq, Repr

/-- The literal dict `{'submitted': ..., 'total_checked': ..., 'users':
..., 'total_due': ...}` the handler files under `summary_data[date_str]`. -/
def DaySummary.toDict (s : DaySummary) : List (String × SVal) :=
  [("submitted", SVal.b s.submitted), ("total_checked", SVal.n s.total_checked),
   ("users", SVal.m s.users), ("total_due", SVal.n s.total_due)]

/-- `user_checks[user_name] = user_checks.get(user_name, 0) + 1` (line 540). -/
def bumpUser (uc : Dict Nat) (u : String) : Dict Nat :=
  dset uc u ((dget uc u).getD 0 + 1)

/-- Body of the inner loop over `user_data.items()` (lines 537–540):
a truthy `checked` flag marks the item checked and bumps that user. -/
def userStep (acc : Bool × Dict Nat) (q : String × Entry) : Bool × Dict Nat :=
  if q.2.checked then (true, bumpUser acc.2 q.1) else acc

/-- Body of the loop over `all_checked_items.items()` (lines 534–543):
count the item once if any user's entry was truthy. -/
def checkStep (acc : Nat × Dict Nat) (p : String × Dict Entry) : Nat × Dict Nat :=
  let inner := p.2.foldl userStep (false, acc.2)
  (if inner.1 then acc.1 + 1 else acc.1, inner.2)

/-- One day of `get_calendar_summary`'s range loop (lines 469–548):
build the base summary from the freshly computed due count, then, if a
record exists, prefer the persisted `items` length and fold the
`checked` map into `submitted` / `total_checked` / `users`. -/
def summarizeDay (masterItems : List Item) (lastCompletions : Dict String)
    (current : Int) (docOpt : Option RecordDoc) : DaySummary :=
  let base : DaySummary :=
    { submitted := false, total_checked := 0, users := [],
      total_due := itemsDueCount masterItems lastCompletions current }
  match docOpt with
  | none => base
  | some data =>
    let s1 := match data.items with
      | some l => { base with total_due := l.length }
      | none => base
    if data.checked.isEmpty then s1
    else
      let tc := data.checked.foldl checkStep (0, [])
      { s1 with submitted := true, total_checked := tc.1, users := tc.2 }

/-- The `while current_dt <= end_dt` loop (lines 468–551), accumulating
`summary_data[date_str] = day_summary` and stepping one calendar day. -/
def calendarLoop (masterItems : List Item) (lastCompletions : Dict String)
    (records : Dict RecordDoc) (endD : Int) (current : Int)
    (acc : Dict DaySummary) : Dict DaySummary :=
  if current ≤ endD then
    let ds := formatYMD current
    let acc' := dset acc ds (summarizeDay masterItems lastCompletions current (dget records ds))
    calendarLoop masterItems lastCompletions records endD (current + 1) acc'
  else acc
  termination_by (endD + 1 - current).toNat
  decreasing_by simp_wf; omega

/-- The response of `GET /api/summary/calendar`. -/
structure CalendarResult where
  summaryData : Dict DaySummary
  totalMasterItems : Nat
  deriving DecidableEq, Repr

/-- `get_calendar_summary` (lines 448–553) after parsing `start_date`
and `end_date` to day ordinals: fetch the master list and the completion
index once, then run the day loop over the inclusive range. -/
def getCalendarSummary (masterItems : List Item) (records : Dict RecordDoc)
    (startD endD : Int) : CalendarResult :=
  let lastCompletions := fetchAllLastCompletions records
  { summaryData := calendarLoop masterItems lastCompletions records endD startD [],
    totalMasterItems := masterItems.length }

/-- The inclusive day range the loop is claimed to traverse. -/
def rangeDates (startD endD : Int) : List Int :=
  (List.range (endD + 1 - startD).toNat).map (fun i : Nat => startD + (i : Int))

/-- The fresh entry written when checking an item (lines 253–258). -/
def freshEntry (note : String) : Entry :=
  { timestamp := TStamp.server, checked := true, note := note }

/-- The checked-map transformation of `toggle_check` (lines 243–258):
ensure `checked[item_id]` exists, then delete the user entry (and the
task key, if emptied) when present, else create a fresh entry. -/
def toggleChecked (checked : Dict (Dict Entry)) (item_id user note : String) :
    Dict (Dict Entry) :=
  let c1 := if !(dmem checked item_id) then dset checked item_id [] else checked
  let um := (dget c1 item_id).getD []
  if dmem um user then
    let um' := derase um user
    if um'.isEmpty then derase c1 item_id
    else dset c1 item_id um'
  else
    dset c1 item_id (dset um user (freshEntry note))

/-- The JSON body of `POST /api/checklist/toggle`. -/
structure ToggleBody where
  date : Option String
  item_id : Option String
  user : Option String
  note : Option String
  deriving DecidableEq, Repr

/-- The handler's outcome: the 400 `Missing item_id` error, or the
success payload echoing the updated checked map. -/
inductive ToggleResponse where
  | badRequest
  | ok (checked : Dict (Dict Entry))
  deriving DecidableEq, Repr

/-- `toggle_check` (lines 214–272) as a function of the request body and
the `checklists` collection; `today` stands for
`datetime.now().strftime('%Y-%m-%d')`.  The 400 guard fires before
`ensure_firebase()` and before any document read or write. -/
def toggle_check (today : String) (body : ToggleBody) (store : Dict RecordDoc) :
    ToggleResponse × Dict RecordDoc :=
  let date := body.date.getD today
  let user := body.user.getD "anonymous"
  let note := body.note.getD ""
  if body.item_id = none ∨ body.item_id = some "" then
    (ToggleResponse.badRequest, store)
  else
    let item_id := body.item_id.getD ""
    let cdata : RecordDoc :=
      match dget store date with
      | some doc => doc
      | none => { date := some date, items := some [], checked := [], lastUpdated := none }
    let checked' := toggleChecked cdata.checked item_id user note
    let cdata' : RecordDoc :=
      { cdata with checked := checked', lastUpdated := some TStamp.server }
    let store' := dset store date cdata'
    let resp :=
      match dget store' date with
      | some doc => ToggleResponse.ok doc.checked
      | none => ToggleResponse.ok []
    (resp, store')

/-- A toggle op on one day's checked map: `(item_id, user, note)`. -/
abbrev ToggleOp := String × String × String

/-- The checked map after a sequence of toggles starting from the empty
map (every state `toggle_check` itself ever persists has this shape). -/
def checkedOfOps (ops : List ToggleOp) : Dict (Dict Entry) :=
  ops.foldl (fun m op => toggleChecked m op.1 op.2.1 op.2.2) []

/-- All entries of a checked map carry `checked == true`. -/
def entriesAllChecked (m : Dict (Dict Entry)) : Bool :=
  m.all (fun p => p.2.all (fun q => q.2.checked))
theorem dget_eq_none_iff {α : Type} (d : Dict α) (k : String) :
    dget d k = none ↔ ∀ p ∈ d, p.1 ≠ k := by
  induction d with
  | nil => simp [dget]
  | cons hd tl ih =>
    obtain ⟨a, b⟩ := hd
    by_cases h : a = k
    · subst h
      simp [dget]
    · simp [dget, h, ih]

theorem dget_some_mem {α : Type} {d : Dict α} {k : String} {v : α}
    (h : dget d k = some v) : (k, v) ∈ d := by
  induction d with
  | nil => simp [dget] at h
  | cons hd tl ih =>
    obtain ⟨a, b⟩ := hd
    by_cases hak : a = k
    · subst hak
      rw [dget, if_pos rfl] at h
      cases h
      exact List.mem_cons_self _ _
    · rw [dget, if_neg hak] at h
      exact List.mem_cons_of_mem _ (ih h)

theorem dget_append {α : Type} (a b : Dict α) (k : String) :
    dget (a ++ b) k = match dget a k with
      | some v => some v
      | none => dget b k := by
  induction a with
  | nil => simp [dget]
  | cons hd tl ih =>
    obtain ⟨x, y⟩ := hd
    by_cases hxk : x = k
    · simp [dget, hxk]
    · simp only [List.cons_append, dget, hxk, if_false]
      simpa using ih

theorem dset_eq_map {α : Type} {d : Dict α} {k : String} (v : α)
    (h : dmem d k = true) :
    dset d k v = d.map (fun p => if p.1 = k then (k, v) else p) := by
  unfold dset
  rw [if_pos h]

theorem dset_eq_append {α : Type} {d : Dict α} {k : String} (v : α)
    (h : dget d k = none) : dset d k v = d ++ [(k, v)] := by
  unfold dset
  rw [if_neg]
  unfold dmem
  simp [h]

theorem dget_mapReplace {α : Type} (d : Dict α) (k : String) (v : α) :
    dget (d.map (fun p => if p.1 = k then (k, v) else p)) k
      = (dget d k).map (fun _ => v) := by
  induction d with
  | nil => simp [dget]
  | cons hd tl ih =>
    obtain ⟨a, b⟩ := hd
    by_cases hak : a = k
    · subst hak
      rw [List.map_cons, if_pos rfl]
      rw [dget, if_pos rfl, dget, if_pos rfl]
      simp
    · rw [List.map_cons, if_neg hak]
      rw [dget, if_neg hak, dget, if_neg hak]
      exact ih

theorem dget_mapReplace_ne {α : Type} (d : Dict α) (k k' : String) (v : α)
    (h : k ≠ k') :
    dget (d.map (fun p => if p.1 = k then (k, v) else p)) k' = dget d k' := by
  induction d with
  | nil => simp [dget]
  | cons hd tl ih =>
    obtain ⟨a, b⟩ := hd
    by_cases hak : a = k
    · subst hak
      rw [List.map_cons, if_pos rfl]
      rw [dget, if_neg h, dget, if_neg h]
      exact ih
    · rw [List.map_cons, if_neg hak]
      by_cases hak' : a = k'
      · rw [dget, if_pos hak', dget, if_pos hak']
      · rw [dget, if_neg hak', dget, if_neg hak']
        exact ih

theorem dget_dset_self {α : Type} (d : Dict α) (k : String) (v : α) :
    dget (dset d k v) k = some v := by
  cases hdk : dget d k with
  | some w =>
    rw [dset_eq_map v (by unfold dmem; simp [hdk])]
    rw [dget_mapReplace]
    simp [hdk]
  | none =>
    rw [dset_eq_append v hdk, dget_append]
    simp [hdk, dget]

theorem dget_dset_ne {α : Type} (d : Dict α) (k k' : String) (v : α)
    (h : k ≠ k') : dget (dset d k v) k' = dget d k' := by
  cases hdk : dget d k with
  | some w =>
    rw [dset_eq_map v (by unfold dmem; simp [hdk])]
    exact dget_mapReplace_ne d k k' v h
  | none =>
    rw [dset_eq_append v hdk, dget_append]
    cases hdk' : dget d k' with
    | some w => simp
    | none => simp [dget, h]

theorem mapReplace_eq_self {α : Type} (d : Dict α) (k : String) (v : α)
    (h : dget d k = none) :
    d.map (fun p => if p.1 = k then (k, v) else p) = d := by
  induction d with
  | nil => simp
  | cons hd tl ih =>
    obtain ⟨a, b⟩ := hd
    by_cases hak : a = k
    · subst hak
      rw [dget, if_pos rfl] at h
      cases h
    · rw [dget, if_neg hak] at h
      rw [List.map_cons, if_neg hak, ih h]

theorem dset_dset {α : Type} (d : Dict α) (k : String) (v1 v2 : α) :
    dset (dset d k v1) k v2 = dset d k v2 := by
  cases hdk : dget d k with
  | some w =>
    have h1 : dmem d k = true := by unfold dmem; simp [hdk]
    rw [dset_eq_map v1 h1]
    have h2 : dmem (d.map (fun p => if p.1 = k then (k, v1) else p)) k = true := by
      unfold dmem
      rw [dget_mapReplace]
      simp [hdk]
    rw [dset_eq_map v2 h2, dset_eq_map v2 h1, List.map_map]
    congr 1
    funext p
    by_cases hp : p.1 = k <;> simp [hp, Function.comp]
  | none =>
    rw [dset_eq_append v1 hdk]
    have h2 : dmem (d ++ [(k, v1)]) k = true := by
      unfold dmem
      rw [dget_append]
      simp [hdk, dget]
    rw [dset_eq_map v2 h2, List.map_append, mapReplace_eq_self d k v2 hdk,
      dset_eq_append v2 hdk]
    simp

theorem derase_eq_self {α : Type} (d : Dict α) (k : String)
    (h : dget d k = none) : derase d k = d := by
  rw [dget_eq_none_iff] at h
  unfold derase
  rw [List.filter_eq_self]
  intro p hp
  simpa using h p hp

theorem derase_append_last {α : Type} (d : Dict α) (k : String) (v : α)
    (h : dget d k = none) : derase (d ++ [(k, v)]) k = d := by
  unfold derase
  rw [List.filter_append]
  have h2 : derase d k = d := derase_eq_self d k h
  unfold derase at h2
  simp [h2]

theorem dset_dget_eq_self {α : Type} (d : Dict α) (k : String) (v : α)
    (hnd : (d.map Prod.fst).Nodup) (h : dget d k = some v) : dset d k v = d := by
  rw [dset_eq_map v (by unfold dmem; simp [h])]
  induction d with
  | nil => simp [dget] at h
  | cons hd tl ih =>
    obtain ⟨a, b⟩ := hd
    simp only [List.map_cons, List.nodup_cons] at hnd
    by_cases hak : a = k
    · subst hak
      rw [dget, if_pos rfl] at h
      injection h with hbv
      subst hbv
      have htl : dget tl a = none := by
        rw [dget_eq_none_iff]
        intro p hp hpe
        exact hnd.1 (hpe ▸ List.mem_map_of_mem Prod.fst hp)
      rw [List.map_cons, if_pos rfl, mapReplace_eq_self tl a b htl]
    · rw [dget, if_neg hak] at h
      rw [List.map_cons, if_neg hak, ih hnd.2 h]

theorem mem_dset {α : Type} {d : Dict α} {k : String} {v : α} {x : String × α}
    (h : x ∈ dset d k v) : x ∈ d ∨ x = (k, v) := by
  unfold dset at h
  by_cases hm : dmem d k
  · rw [if_pos hm] at h
    obtain ⟨p, hp, hpe⟩ := List.mem_map.mp h
    by_cases hpk : p.1 = k
    · rw [if_pos hpk] at hpe
      exact Or.inr hpe.symm
    · rw [if_neg hpk] at hpe
      exact Or.inl (hpe ▸ hp)
  · rw [if_neg hm] at h
    rcases List.mem_append.mp h with h1 | h1
    · exact Or.inl h1
    · simp at h1
      exact Or.inr h1

theorem mem_derase {α : Type} {d : Dict α} {k : String} {x : String × α}
    (h : x ∈ derase d k) : x ∈ d :=
  (List.mem_filter.mp h).1

theorem pyGtChars_irrefl : ∀ l : List Char, pyGtChars l l = false
  | [] => rfl
  | c :: cs => by
    rw [pyGtChars, if_pos rfl]
    exact pyGtChars_irrefl cs

theorem pyGtChars_trans : ∀ a b c : List Char,
    pyGtChars a b = true → pyGtChars b c = true → pyGtChars a c = true
  | [], b, c, h1, _ => by simp [pyGtChars] at h1
  | _ :: _, [], c, _, h2 => by simp [pyGtChars] at h2
  | _ :: _, _ :: _, [], _, _ => rfl
  | x :: xs, y :: ys, z :: zs, h1, h2 => by
    rw [pyGtChars] at h1 h2 ⊢
    by_cases hxy : x = y
    · subst hxy
      rw [if_pos rfl] at h1
      by_cases hyz : x = z
      · subst hyz
        rw [if_pos rfl] at h2 ⊢
        exact pyGtChars_trans xs ys zs h1 h2
      · rw [if_neg hyz] at h2 ⊢
        exact h2
    · rw [if_neg hxy] at h1
      have hyx : y < x := of_decide_eq_true h1
      by_cases hyz : y = z
      · subst hyz
        rw [if_neg hxy]
        exact decide_eq_true hyx
      · rw [if_neg hyz] at h2
        have hzy : z < y := of_decide_eq_true h2
        have hzx : z < x := lt_trans hzy hyx
        have hxz : ¬x = z := fun he => absurd (he ▸ hzx) (lt_irrefl x)
        rw [if_neg hxz]
        exact decide_eq_true hzx

theorem pyGtChars_eq_of_not : ∀ a b : List Char,
    pyGtChars a b = false → pyGtChars b a = false → a = b
  | [], [], _, _ => rfl
  | [], _ :: _, _, h2 => by simp [pyGtChars] at h2
  | _ :: _, [], h1, _ => by simp [pyGtChars] at h1
  | x :: xs, y :: ys, h1, h2 => by
    rw [pyGtChars] at h1 h2
    by_cases hxy : x = y
    · subst hxy
      rw [if_pos rfl] at h1 h2
      rw [pyGtChars_eq_of_not xs ys h1 h2]
    · rw [if_neg hxy] at h1
      rw [if_neg (fun he => hxy he.symm)] at h2
      have hy : ¬y < x := of_decide_eq_false h1
      have hx : ¬x < y := of_decide_eq_false h2
      exact absurd (le_antisymm (le_of_not_lt hy) (le_of_not_lt hx)) hxy

theorem pyStrGt_irrefl (s : String) : pyStrGt s s = false :=
  pyGtChars_irrefl s.data

theorem pyStrGt_trans {a b c : String} (h1 : pyStrGt a b = true)
    (h2 : pyStrGt b c = true) : pyStrGt a c = true :=
  pyGtChars_trans a.data b.data c.data h1 h2

theorem pyStrGt_eq_of_not {a b : String} (h1 : pyStrGt a b = false)
    (h2 : pyStrGt b a = false) : a = b := by
  cases a with
  | mk da =>
    cases b with
    | mk db =>
      exact congrArg String.mk (pyGtChars_eq_of_not da db h1 h2)

/-- Totality in the form used below: if `a > b` fails then either
`b > a` or the strings are equal. -/
theorem pyStrGt_total {a b : String} (h : pyStrGt a b = false) :
    pyStrGt b a = true ∨ a = b := by
  cases hba : pyStrGt b a with
  | true => exact Or.inl rfl
  | false => exact Or.inr (pyStrGt_eq_of_not h hba)

/-- From `a > c` and `¬ a > b` conclude `b > c`. -/
theorem pyStrGt_of_gt_of_not_gt {a b c : String} (h1 : pyStrGt a c = true)
    (h2 : pyStrGt a b = false) : pyStrGt b c = true := by
  rcases pyStrGt_total h2 with hba | rfl
  · exact pyStrGt_trans hba h1
  · exact h1

/-- The running best the index keeps for one task: first date seen, then
replaced whenever a strictly greater date arrives. -/
def updateMaxVal (v : Option String) (d : String) : Option String :=
  match v with
  | none => some d
  | some prev => if pyStrGt d prev then some d else some prev

theorem updateMaxVal_idem (v : Option String) (d : String) :
    updateMaxVal (updateMaxVal v d) d = updateMaxVal v d := by
  cases v with
  | none => simp [updateMaxVal, pyStrGt_irrefl]
  | some prev =>
    by_cases h : pyStrGt d prev = true
    · simp [updateMaxVal, h, pyStrGt_irrefl]
    · simp only [Bool.not_eq_true] at h
      simp [updateMaxVal, h]

theorem dget_updateLast_self (acc : Dict String) (t d : String) :
    dget (updateLast acc t d) t = updateMaxVal (dget acc t) d := by
  unfold updateLast
  cases hv : dget acc t with
  | none => simp [updateMaxVal, dget_dset_self]
  | some prev =>
    by_cases h : pyStrGt d prev = true
    · simp [updateMaxVal, h, dget_dset_self]
    · simp only [Bool.not_eq_true] at h
      simp [updateMaxVal, h, hv]

theorem dget_updateLast_ne (acc : Dict String) (k d t : String) (h : k ≠ t) :
    dget (updateLast acc k d) t = dget acc t := by
  unfold updateLast
  cases hv : dget acc k with
  | none => exact dget_dset_ne acc k t d h
  | some prev =>
    by_cases hgt : pyStrGt d prev = true
    · simp only [hgt, if_true]
      exact dget_dset_ne acc k t d h
    · simp only [Bool.not_eq_true] at hgt
      simp [hgt]

/-- Whether a record's `checked` map makes the index update fire for
task `t`: some entry with key `t` and a truthy (non-empty) user-map. -/
def recHasNonEmptyB (checked : Dict (Dict Entry)) (t : String) : Bool :=
  checked.any (fun p => p.1 = t && !p.2.isEmpty)

theorem inner_scan_dget (dd : String) :
    ∀ (l : Dict (Dict Entry)) (acc : Dict String) (t : String),
    dget (l.foldl (fun acc2 p => if p.2.isEmpty then acc2 else updateLast acc2 p.1 dd) acc) t
      = if recHasNonEmptyB l t then updateMaxVal (dget acc t) dd else dget acc t := by
  intro l
  induction l with
  | nil => intro acc t; simp [recHasNonEmptyB]
  | cons p l ih =>
    intro acc t
    rw [List.foldl_cons]
    by_cases hemp : p.2.isEmpty
    · rw [if_pos hemp]
      rw [ih acc t]
      have : recHasNonEmptyB (p :: l) t = recHasNonEmptyB l t := by
        simp [recHasNonEmptyB, hemp]
      rw [this]
    · rw [if_neg hemp]
      rw [ih (updateLast acc p.1 dd) t]
      by_cases hpt : p.1 = t
      · subst hpt
        have hhead : recHasNonEmptyB (p :: l) p.1 = true := by
          simp [recHasNonEmptyB, hemp]
        rw [hhead, if_pos rfl, dget_updateLast_self]
        by_cases hrest : recHasNonEmptyB l p.1 = true
        · rw [if_pos hrest, updateMaxVal_idem]
        · simp only [Bool.not_eq_true] at hrest
          rw [hrest, if_neg (by simp)]
      · rw [dget_updateLast_ne acc p.1 dd t hpt]
        have : recHasNonEmptyB (p :: l) t = recHasNonEmptyB l t := by
          simp [recHasNonEmptyB, hpt]
        rw [this]

theorem fetch_scan_dget :
    ∀ (records : Dict RecordDoc) (acc : Dict String) (t : String),
    dget (records.foldl
      (fun acc r =>
        r.2.checked.foldl
          (fun acc2 p => if p.2.isEmpty then acc2 else updateLast acc2 p.1 r.1)
          acc)
      acc) t
    = records.foldl
        (fun v r => if recHasNonEmptyB r.2.checked t then updateMaxVal v r.1 else v)
        (dget acc t) := by
  intro records
  induction records with
  | nil => intro acc t; rfl
  | cons r records ih =>
    intro acc t
    rw [List.foldl_cons, List.foldl_cons, ih, inner_scan_dget]

theorem dget_fetchAllLastCompletions (records : Dict RecordDoc) (t : String) :
    dget (fetchAllLastCompletions records) t
      = records.foldl
          (fun v r => if recHasNonEmptyB r.2.checked t then updateMaxVal v r.1 else v)
          none := by
  unfold fetchAllLastCompletions
  rw [fetch_scan_dget records [] t]
  rfl

theorem foldMax_eq_some_iff (P : String × RecordDoc → Bool) :
    ∀ (l : Dict RecordDoc) (v : Option String) (d : String),
    (l.foldl (fun v r => if P r then updateMaxVal v r.1 else v) v = some d ↔
      ((v = some d ∨ ∃ r ∈ l, P r = true ∧ r.1 = d)
       ∧ (∀ x, v = some x → pyStrGt x d = false)
       ∧ (∀ r ∈ l, P r = true → pyStrGt r.1 d = false))) := by
  intro l
  induction l with
  | nil =>
    intro v d
    simp only [List.foldl_nil, List.not_mem_nil, false_and, exists_false, or_false,
      IsEmpty.forall_iff, implies_true, and_true, false_implies]
    constructor
    · rintro rfl
      exact ⟨rfl, fun x hx => by cases hx; exact pyStrGt_irrefl d⟩
    · rintro ⟨rfl, _⟩
      rfl
  | cons r l ih =>
    intro v d
    rw [List.foldl_cons]
    by_cases hp : P r = true
    · rw [if_pos hp]
      cases v with
      | none =>
        rw [show updateMaxVal none r.1 = some r.1 from rfl, ih]
        constructor
        · rintro ⟨h1, h2, h3⟩
          refine ⟨?_, ?_, ?_⟩
          · rcases h1 with h1 | h1
            · injection h1 with h1
              exact Or.inr ⟨r, List.mem_cons_self _ _, hp, h1⟩
            · obtain ⟨r', hr', hP', he'⟩ := h1
              exact Or.inr ⟨r', List.mem_cons_of_mem _ hr', hP', he'⟩
          · rintro x hx
            cases hx
          · intro r' hr' hP'
            rcases List.mem_cons.mp hr' with rfl | hr'
            · exact h2 r'.1 rfl
            · exact h3 r' hr' hP'
        · rintro ⟨h1, _, h3⟩
          have hrd : pyStrGt r.1 d = false := h3 r (List.mem_cons_self _ _) hp
          refine ⟨?_, ?_, ?_⟩
          · rcases h1 with h1 | ⟨r', hr', hP', he'⟩
            · cases h1
            · rcases List.mem_cons.mp hr' with rfl | hr'
              · exact Or.inl (congrArg some he')
              · exact Or.inr ⟨r', hr', hP', he'⟩
          · intro x hx
            injection hx with hx
            exact hx ▸ hrd
          · intro r' hr' hP'
            exact h3 r' (List.mem_cons_of_mem _ hr') hP'
      | some prev =>
        by_cases hgt : pyStrGt r.1 prev = true
        · rw [show updateMaxVal (some prev) r.1 = if pyStrGt r.1 prev then some r.1 else some prev from rfl,
            if_pos hgt, ih]
          constructor
          · rintro ⟨h1, h2, h3⟩
            have hrd : pyStrGt r.1 d = false := h2 r.1 rfl
            have hpd : pyStrGt prev d = false := by
              cases hprevd : pyStrGt prev d with
              | false => rfl
              | true =>
                have : pyStrGt r.1 d = true := pyStrGt_trans hgt hprevd
                rw [this] at hrd
                cases hrd
            refine ⟨?_, ?_, ?_⟩
            · rcases h1 with h1 | h1
              · injection h1 with h1
                exact Or.inr ⟨r, List.mem_cons_self _ _, hp, h1⟩
              · obtain ⟨r', hr', hP', he'⟩ := h1
                exact Or.inr ⟨r', List.mem_cons_of_mem _ hr', hP', he'⟩
            · intro x hx
              injection hx with hx
              exact hx ▸ hpd
            · intro r' hr' hP'
              rcases List.mem_cons.mp hr' with rfl | hr'
              · exact hrd
              · exact h3 r' hr' hP'
          · rintro ⟨h1, h2, h3⟩
            have hrd : pyStrGt r.1 d = false := h3 r (List.mem_cons_self _ _) hp
            refine ⟨?_, ?_, ?_⟩
            · rcases h1 with h1 | ⟨r', hr', hP', he'⟩
              · injection h1 with h1
                subst h1
                rw [hrd] at hgt
                cases hgt
              · rcases List.mem_cons.mp hr' with rfl | hr'
                · exact Or.inl (congrArg some he')
                · exact Or.inr ⟨r', hr', hP', he'⟩
            · intro x hx
              injection hx with hx
              exact hx ▸ hrd
            · intro r' hr' hP'
              exact h3 r' (List.mem_cons_of_mem _ hr') hP'
        · simp only [Bool.not_eq_true] at hgt
          rw [show updateMaxVal (some prev) r.1 = if pyStrGt r.1 prev then some r.1 else some prev from rfl,
            hgt, if_neg (by simp), ih]
          constructor
          · rintro ⟨h1, h2, h3⟩
            have hpd : pyStrGt prev d = false := h2 prev rfl
            have hrd : pyStrGt r.1 d = false := by
              cases hrd : pyStrGt r.1 d with
              | false => rfl
              | true =>
                have : pyStrGt prev d = true := pyStrGt_of_gt_of_not_gt hrd hgt
                rw [this] at hpd
                cases hpd
            refine ⟨?_, ?_, ?_⟩
            · rcases h1 with h1 | h1
              · exact Or.inl h1
              · obtain ⟨r', hr', hP', he'⟩ := h1
                exact Or.inr ⟨r', List.mem_cons_of_mem _ hr', hP', he'⟩
            · exact h2
            · intro r' hr' hP'
              rcases List.mem_cons.mp hr' with rfl | hr'
              · exact hrd
              · exact h3 r' hr' hP'
          · rintro ⟨h1, h2, h3⟩
            refine ⟨?_, h2, ?_⟩
            · rcases h1 with h1 | ⟨r', hr', hP', he'⟩
              · exact Or.inl h1
              · rcases List.mem_cons.mp hr' with rfl | hr'
                · subst he'
                  have hpd : pyStrGt prev r'.1 = false := h2 prev rfl
                  have hrd : pyStrGt r'.1 prev = false := hgt
                  have : prev = r'.1 := pyStrGt_eq_of_not hpd hrd
                  exact Or.inl (congrArg some this)
                · exact Or.inr ⟨r', hr', hP', he'⟩
            · intro r' hr' hP'
              exact h3 r' (List.mem_cons_of_mem _ hr') hP'
    · simp only [Bool.not_eq_true] at hp
      rw [hp, if_neg (by simp), ih]
      constructor
      · rintro ⟨h1, h2, h3⟩
        refine ⟨?_, h2, ?_⟩
        · rcases h1 with h1 | ⟨r', hr', hP', he'⟩
          · exact Or.inl h1
          · exact Or.inr ⟨r', List.mem_cons_of_mem _ hr', hP', he'⟩
        · intro r' hr' hP'
          rcases List.mem_cons.mp hr' with rfl | hr'
          · rw [hp] at hP'
            cases hP'
          · exact h3 r' hr' hP'
      · rintro ⟨h1, h2, h3⟩
        refine ⟨?_, h2, ?_⟩
        · rcases h1 with h1 | ⟨r', hr', hP', he'⟩
          · exact Or.inl h1
          · rcases List.mem_cons.mp hr' with rfl | hr'
            · rw [hp] at hP'
              cases hP'
            · exact Or.inr ⟨r', hr', hP', he'⟩
        · intro r' hr' hP'
          exact h3 r' (List.mem_cons_of_mem _ hr') hP'

theorem userFold_fst : ∀ (l : Dict Entry) (b : Bool) (uc : Dict Nat),
    (l.foldl userStep (b, uc)).1 = (b || l.any (fun q => q.2.checked)) := by
  intro l
  induction l with
  | nil => intro b uc; simp
  | cons q l ih =>
    intro b uc
    rw [List.foldl_cons]
    by_cases hq : q.2.checked
    · rw [show userStep (b, uc) q = (true, bumpUser uc q.1) from by
        unfold userStep; rw [if_pos hq]]
      rw [ih]
      simp [hq]
    · rw [show userStep (b, uc) q = (b, uc) from by
        unfold userStep; rw [if_neg hq]]
      rw [ih]
      simp only [Bool.not_eq_true] at hq
      simp [hq]

theorem checkFold_fst : ∀ (l : Dict (Dict Entry)) (tc : Nat) (uc : Dict Nat),
    (l.foldl checkStep (tc, uc)).1
      = tc + l.countP (fun p => p.2.any (fun q => q.2.checked)) := by
  intro l
  induction l with
  | nil => intro tc uc; simp
  | cons p l ih =>
    intro tc uc
    rw [List.foldl_cons, ← Prod.mk.eta (p := checkStep (tc, uc) p), ih, List.countP_cons]
    have hfst : (checkStep (tc, uc) p).1
        = if p.2.any (fun q => q.2.checked) then tc + 1 else tc := by
      simp only [checkStep]
      rw [userFold_fst]
      simp only [Bool.false_or]
    rw [hfst]
    by_cases hany : p.2.any (fun q => q.2.checked)
    · simp [hany]
      omega
    · simp only [Bool.not_eq_true] at hany
      simp [hany]

theorem rangeDates_eq_nil (s e : Int) (h : e < s) : rangeDates s e = [] := by
  unfold rangeDates
  have h0 : (e + 1 - s).toNat = 0 := by omega
  rw [h0]
  rfl

theorem rangeDates_cons (s e : Int) (h : s ≤ e) :
    rangeDates s e = s :: rangeDates (s + 1) e := by
  unfold rangeDates
  have h1 : (e + 1 - s).toNat = (e + 1 - (s + 1)).toNat + 1 := by omega
  rw [h1, List.range_succ_eq_map, List.map_cons, List.map_map]
  have h2 : ((fun i : Nat => s + (i : Int)) ∘ Nat.succ) = fun i : Nat => (s + 1) + (i : Int) := by
    funext i
    simp only [Function.comp]
    push_cast
    ring
  rw [h2]
  simp

theorem rangeDates_self (s : Int) : rangeDates s s = [s] := by
  rw [rangeDates_cons s s le_rfl, rangeDates_eq_nil (s + 1) s (by omega)]

theorem calendarLoop_step (mi : List Item) (lc : Dict String)
    (records : Dict RecordDoc) (endD current : Int) (acc : Dict DaySummary)
    (h : current ≤ endD) :
    calendarLoop mi lc records endD current acc
      = calendarLoop mi lc records endD (current + 1)
          (dset acc (formatYMD current)
            (summarizeDay mi lc current (dget records (formatYMD current)))) := by
  rw [calendarLoop, if_pos h]

theorem calendarLoop_eq (mi : List Item) (lc : Dict String)
    (records : Dict RecordDoc) (endD : Int) :
    ∀ (n : Nat) (current : Int), (endD + 1 - current).toNat = n →
    ∀ (acc : Dict DaySummary),
    (∀ d ∈ rangeDates current endD, dget acc (formatYMD d) = none) →
    ((rangeDates current endD).map formatYMD).Nodup →
    calendarLoop mi lc records endD current acc
      = acc ++ (rangeDates current endD).map
          (fun d => (formatYMD d, summarizeDay mi lc d (dget records (formatYMD d)))) := by
  intro n
  induction n with
  | zero =>
    intro current hn acc _ _
    have hlt : endD < current := by omega
    rw [calendarLoop, if_neg (by omega), rangeDates_eq_nil current endD hlt]
    simp
  | succ n ih =>
    intro current hn acc hfresh hnd
    have hle : current ≤ endD := by omega
    rw [calendarLoop_step mi lc records endD current acc hle]
    rw [rangeDates_cons current endD hle] at hfresh hnd ⊢
    have hget : dget acc (formatYMD current) = none :=
      hfresh current (List.mem_cons_self _ _)
    rw [dset_eq_append _ hget]
    rw [List.map_cons, List.nodup_cons] at hnd
    have hfresh' : ∀ d ∈ rangeDates (current + 1) endD,
        dget (acc ++ [(formatYMD current,
          summarizeDay mi lc current (dget records (formatYMD current)))]) (formatYMD d) = none := by
      intro d hd
      rw [dget_append]
      rw [hfresh d (List.mem_cons_of_mem _ hd)]
      have hne : formatYMD current ≠ formatYMD d :=
        fun he => hnd.1 (he ▸ List.mem_map_of_mem formatYMD hd)
      simp [dget, hne]
    rw [ih (current + 1) (by omega) _ hfresh' hnd.2]
    simp

theorem entriesAllChecked_iff (m : Dict (Dict Entry)) :
    entriesAllChecked m = true ↔ ∀ p ∈ m, ∀ q ∈ p.2, q.2.checked = true := by
  simp [entriesAllChecked, List.all_eq_true]

theorem toggleChecked_preserves (m : Dict (Dict Entry)) (i u n : String)
    (h : entriesAllChecked m = true) :
    entriesAllChecked (toggleChecked m i u n) = true := by
  rw [entriesAllChecked_iff] at h ⊢
  unfold toggleChecked
  by_cases hm : dmem m i = true
  all_goals
    simp only [hm, Bool.not_true, Bool.not_false, if_true, if_false,
      Bool.false_eq_true, Bool.true_eq_false, ite_true, ite_false]
  · -- `item_id` already present: `c1 = m`
    have hAllum : ∀ q ∈ (dget m i).getD [], q.2.checked = true := by
      cases hg : dget m i with
      | none => intro q hq; cases hq
      | some w =>
        simp only [Option.getD_some]
        exact fun q hq => h (i, w) (dget_some_mem hg) q hq
    by_cases hu : dmem ((dget m i).getD []) u = true
    all_goals simp only [hu, if_true, if_false, Bool.false_eq_true, ite_true, ite_false]
    · by_cases hemp : (derase ((dget m i).getD []) u).isEmpty = true
      all_goals simp only [hemp, if_true, if_false, Bool.false_eq_true, ite_true, ite_false]
      · exact fun p hp => h p (mem_derase hp)
      · intro p hp
        rcases mem_dset hp with hp | rfl
        · exact h p hp
        · exact fun q hq => hAllum q (mem_derase hq)
    · intro p hp
      rcases mem_dset hp with hp | rfl
      · exact h p hp
      · intro q hq
        rcases mem_dset hq with hq | rfl
        · exact hAllum q hq
        · rfl
  · -- fresh `item_id`: `c1 = dset m i []`
    have hAll1 : ∀ p ∈ dset m i [], ∀ q ∈ p.2, q.2.checked = true := by
      intro p hp
      rcases mem_dset hp with hp | rfl
      · exact h p hp
      · intro q hq
        cases hq
    have hAllum : ∀ q ∈ (dget (dset m i ([] : Dict Entry)) i).getD [], q.2.checked = true := by
      cases hg : dget (dset m i ([] : Dict Entry)) i with
      | none => intro q hq; cases hq
      | some w =>
        simp only [Option.getD_some]
        exact fun q hq => hAll1 (i, w) (dget_some_mem hg) q hq
    by_cases hu : dmem ((dget (dset m i ([] : Dict Entry)) i).getD []) u = true
    all_goals simp only [hu, if_true, if_false, Bool.false_eq_true, ite_true, ite_false]
    · by_cases hemp : (derase ((dget (dset m i ([] : Dict Entry)) i).getD []) u).isEmpty = true
      all_goals simp only [hemp, if_true, if_false, Bool.false_eq_true, ite_true, ite_false]
      · exact fun p hp => hAll1 p (mem_derase hp)
      · intro p hp
        rcases mem_dset hp with hp | rfl
        · exact hAll1 p hp
        · exact fun q hq => hAllum q (mem_derase hq)
    · intro p hp
      rcases mem_dset hp with hp | rfl
      · exact hAll1 p hp
      · intro q hq
        rcases mem_dset hq with hq | rfl
        · exact hAllum q hq
        · rfl

theorem checkedOfOps_allChecked (ops : List ToggleOp) :
    entriesAllChecked (checkedOfOps ops) = true := by
  unfold checkedOfOps
  have haux : ∀ (l : List ToggleOp) (m : Dict (Dict Entry)),
      entriesAllChecked m = true →
      entriesAllChecked (l.foldl (fun m op => toggleChecked m op.1 op.2.1 op.2.2) m) = true := by
    intro l
    induction l with
    | nil => intro m hm; exact hm
    | cons op l ih =>
      intro m hm
      rw [List.foldl_cons]
      exact ih _ (toggleChecked_preserves m op.1 op.2.1 op.2.2 hm)
  exact haux ops [] rfl

theorem inner_guard_eq (dd : String) :
    ∀ (l : Dict (Dict Entry)) (acc : Dict String),
    (∀ p ∈ l, ∀ q ∈ p.2, q.2.checked = true) →
    l.foldl (fun acc2 p => if p.2.isEmpty then acc2 else updateLast acc2 p.1 dd) acc
      = l.foldl (fun acc2 p =>
          if p.2.any (fun q => q.2.checked) then updateLast acc2 p.1 dd else acc2) acc := by
  intro l
  induction l with
  | nil => intro acc _; rfl
  | cons p l ih =>
    intro acc h
    rw [List.foldl_cons, List.foldl_cons]
    have hstep : (if p.2.isEmpty then acc else updateLast acc p.1 dd)
        = (if p.2.any (fun q => q.2.checked) then updateLast acc p.1 dd else acc) := by
      cases hp2 : p.2 with
      | nil => simp
      | cons q qs =>
        have hq : q.2.checked = true :=
          h p (List.mem_cons_self _ _) q (by rw [hp2]; exact List.mem_cons_self _ _)
        simp [hq]
    rw [hstep]
    exact ih _ (fun p' hp' => h p' (List.mem_cons_of_mem _ hp'))

theorem fetch_eq_spec (records : Dict RecordDoc)
    (h : ∀ r ∈ records, entriesAllChecked r.2.checked = true) :
    fetchAllLastCompletions records = fetchAllLastCompletionsSpec records := by
  unfold fetchAllLastCompletions fetchAllLastCompletionsSpec
  have haux : ∀ (l : Dict RecordDoc) (acc : Dict String),
      (∀ r ∈ l, entriesAllChecked r.2.checked = true) →
      l.foldl (fun acc r => r.2.checked.foldl
          (fun acc2 p => if p.2.isEmpty then acc2 else updateLast acc2 p.1 r.1) acc) acc
        = l.foldl (fun acc r => r.2.checked.foldl
            (fun acc2 p =>
              if p.2.any (fun q => q.2.checked) then updateLast acc2 p.1 r.1 else acc2) acc) acc := by
    intro l
    induction l with
    | nil => intro acc _; rfl
    | cons r l ih =>
      intro acc hl
      rw [List.foldl_cons, List.foldl_cons]
      rw [inner_guard_eq r.1 r.2.checked acc
        ((entriesAllChecked_iff r.2.checked).mp (hl r (List.mem_cons_self _ _)))]
      exact ih _ (fun r' hr' => hl r' (List.mem_cons_of_mem _ hr'))
  exact haux records [] h

theorem nonEmpty_iff_anyChecked (m : Dict (Dict Entry))
    (h : entriesAllChecked m = true) :
    ∀ p ∈ m, (p.2 ≠ [] ↔ ∃ q ∈ p.2, q.2.checked = true) := by
  rw [entriesAllChecked_iff] at h
  intro p hp
  constructor
  · intro hne
    cases hq : p.2 with
    | nil => exact absurd hq hne
    | cons q qs =>
      exact ⟨q, by simp [hq], h p hp q (by simp [hq])⟩
  · rintro ⟨q, hq, _⟩ he
    rw [he] at hq
    cases hq

/-- C1: for a task with `periodDays = P > 0` and a non-null last
completion `D`, the due evaluation shared by `get_checklist` and
`get_calendar_summary` judges candidate `D + k` due iff `k ≥ P`
(`k = P` due, `0 ≤ k < P` not due), with `k` the midnight-normalised
calendar-day difference; accordingly the checklist filter keeps the item
and the calendar counter counts it exactly when `k ≥ P`. -/
theorem c1_due_boundary (P : Int) (hP : 0 < P) (D : String) (hD : D ≠ "") (k : Int) :
    isDue (some P) (some D) (parseYMD D + k) = decide (P ≤ k)
    ∧ ∀ (item : Item) (lc : Dict String), item.periodDays = some P →
        dget lc item.id = some D →
        (filteredItems [item] lc (parseYMD D + k) = if P ≤ k then [item] else [])
        ∧ itemsDueCount [item] lc (parseYMD D + k) = if P ≤ k then 1 else 0 := by
  have hmain : isDue (some P) (some D) (parseYMD D + k) = decide (P ≤ k) := by
    show (if 0 < P then
        (if D = "" then true
         else if parseYMD D + k - parseYMD D < P then false else true)
      else true) = decide (P ≤ k)
    rw [if_pos hP, if_neg hD]
    have hk : parseYMD D + k - parseYMD D = k := by ring
    rw [hk]
    by_cases h : k < P
    · rw [if_pos h]
      symm
      rw [decide_eq_false_iff_not]
      omega
    · rw [if_neg h]
      symm
      rw [decide_eq_true_eq]
      omega
  refine ⟨hmain, fun item lc hpd hlc => ?_⟩
  have hdue : isDue item.periodDays (dget lc item.id) (parseYMD D + k) = decide (P ≤ k) := by
    rw [hpd, hlc, hmain]
  constructor
  · unfold filteredItems
    by_cases h : P ≤ k
    · rw [if_pos h]
      simp [hdue, h]
    · rw [if_neg h]
      simp [hdue, h]
  · unfold itemsDueCount
    by_cases h : P ≤ k
    · rw [if_pos h]
      simp [hdue, h]
    · rw [if_neg h]
      simp [hdue, h]

theorem c1_witness :
    (0 : Int) < 3 ∧ ("2024-01-01" : String) ≠ ""
    ∧ isDue (some 3) (some "2024-01-01") (parseYMD "2024-01-01" + 3) = true
    ∧ isDue (some 3) (some "2024-01-01") (parseYMD "2024-01-01" + 2) = false
    ∧ filteredItems [⟨"A", some 3⟩] [("A", "2024-01-01")] (parseYMD "2024-01-01" + 3)
        = [⟨"A", some 3⟩] := by
  refine ⟨by decide, by decide, ?_, ?_, ?_⟩
  · rw [(c1_due_boundary 3 (by decide) "2024-01-01" (by decide) 3).1]
    decide
  · rw [(c1_due_boundary 3 (by decide) "2024-01-01" (by decide) 2).1]
    decide
  · rw [((c1_due_boundary 3 (by decide) "2024-01-01" (by decide) 3).2
      ⟨"A", some 3⟩ [("A", "2024-01-01")] rfl rfl).1]
    decide

/-- C2: with `periodDays` absent, null or non-positive, the evaluator
returns due for every candidate date and every completion history,
including a completion on the candidate date itself. -/
theorem c2_nonpositive_always_due (pd : Option Int)
    (h : pd = none ∨ ∃ p, pd = some p ∧ p ≤ 0)
    (lastStr : Option String) (target : Int) :
    isDue pd lastStr target = true := by
  rcases h with rfl | ⟨p, rfl, hp⟩
  · rfl
  · show (if 0 < p then
        (match lastStr with
         | none => true
         | some s =>
           if s = "" then true
           else if target - parseYMD s < p then false else true)
      else true) = true
    rw [if_neg (by omega)]

theorem c2_witness :
    ((some 0 : Option Int) = none ∨ ∃ p, (some 0 : Option Int) = some p ∧ p ≤ 0)
    ∧ isDue (some 0) (some "2024-01-05") (parseYMD "2024-01-05") = true
    ∧ isDue none (some "2024-01-05") (parseYMD "2024-01-05") = true
    ∧ isDue (some (-2)) none (parseYMD "2024-01-05") = true :=
  ⟨Or.inr ⟨0, rfl, by decide⟩,
   c2_nonpositive_always_due (some 0) (Or.inr ⟨0, rfl, by decide⟩)
     (some "2024-01-05") (parseYMD "2024-01-05"),
   c2_nonpositive_always_due none (Or.inl rfl)
     (some "2024-01-05") (parseYMD "2024-01-05"),
   c2_nonpositive_always_due (some (-2)) (Or.inr ⟨-2, rfl, by decide⟩)
     none (parseYMD "2024-01-05")⟩

/-- C9: a toggle request without an `item_id` (absent or empty) fails
with the 400 response and the store is returned untouched, whatever its
contents — the guard fires before any store access. -/
theorem c9_missing_item_id (today : String) (body : ToggleBody)
    (store : Dict RecordDoc)
    (h : body.item_id = none ∨ body.item_id = some "") :
    toggle_check today body store = (ToggleResponse.badRequest, store) := by
  rcases h with h | h <;> simp [toggle_check, h]

theorem c9_witness :
    (({ date := none, item_id := none, user := some "u", note := none } : ToggleBody).item_id = none
      ∨ ({ date := none, item_id := none, user := some "u", note := none } : ToggleBody).item_id = some "")
    ∧ toggle_check "2024-01-05"
        { date := none, item_id := none, user := some "u", note := none }
        [("2024-01-05", { date := some "2024-01-05", items := some [], checked := [], lastUpdated := none })]
      = (ToggleResponse.badRequest,
         [("2024-01-05", { date := some "2024-01-05", items := some [], checked := [], lastUpdated := none })]) :=
  ⟨Or.inl rfl,
   c9_missing_item_id "2024-01-05"
     { date := none, item_id := none, user := some "u", note := none }
     [("2024-01-05", { date := some "2024-01-05", items := some [], checked := [], lastUpdated := none })]
     (Or.inl rfl)⟩

/-- C4: for a date with a stored record, the summary's `submitted` flag
is true exactly when the record's `checked` map is non-empty, and
`total_checked` counts the distinct task-ids whose user-map has at least
one truthy `checked` entry — once per task-id no matter how many users
checked it. -/
theorem c4_submitted_total_checked (mi : List Item) (lc : Dict String)
    (d : Int) (rec : RecordDoc) :
    (summarizeDay mi lc d (some rec)).submitted = !rec.checked.isEmpty
    ∧ ((rec.checked.map Prod.fst).Nodup →
       (summarizeDay mi lc d (some rec)).total_checked
         = ((rec.checked.filter (fun p => p.2.any (fun q => q.2.checked))).map Prod.fst).length) := by
  cases hch : rec.checked with
  | nil =>
    cases hitems : rec.items with
    | none => simp [summarizeDay, hch, hitems]
    | some l => simp [summarizeDay, hch, hitems]
  | cons p ps =>
    have htc : (summarizeDay mi lc d (some rec)).total_checked
        = ((p :: ps).filter (fun p => p.2.any (fun q => q.2.checked))).length := by
      have hfold : ((p :: ps).foldl checkStep (0, [])).1
          = (p :: ps).countP (fun p => p.2.any (fun q => q.2.checked)) := by
        rw [checkFold_fst]
        omega
      cases hitems : rec.items with
      | none =>
        simp only [summarizeDay, hch, hitems, List.isEmpty_cons, Bool.false_eq_true,
          if_false]
        rw [hfold, List.countP_eq_length_filter]
      | some l =>
        simp only [summarizeDay, hch, hitems, List.isEmpty_cons, Bool.false_eq_true,
          if_false]
        rw [hfold, List.countP_eq_length_filter]
    constructor
    · cases hitems : rec.items with
      | none => simp [summarizeDay, hch, hitems]
      | some l => simp [summarizeDay, hch, hitems]
    · intro _
      rw [htc, List.length_map]


theorem c4_witness :
    ((([("A", [("u1", ⟨TStamp.instant 1, true, ""⟩), ("u2", ⟨TStamp.instant 2, true, ""⟩)]),
        ("B", [("u1", ⟨TStamp.instant 3, false, ""⟩)])] : Dict (Dict Entry)).map Prod.fst).Nodup)
    ∧ (summarizeDay [] [] 0 (some
        { date := none, items := none,
          checked := [("A", [("u1", ⟨TStamp.instant 1, true, ""⟩), ("u2", ⟨TStamp.instant 2, true, ""⟩)]),
                      ("B", [("u1", ⟨TStamp.instant 3, false, ""⟩)])],
          lastUpdated := none })).submitted = true
    ∧ (summarizeDay [] [] 0 (some
        { date := none, items := none,
          checked := [("A", [("u1", ⟨TStamp.instant 1, true, ""⟩), ("u2", ⟨TStamp.instant 2, true, ""⟩)]),
                      ("B", [("u1", ⟨TStamp.instant 3, false, ""⟩)])],
          lastUpdated := none })).total_checked = 1 := by
  refine ⟨by decide, ?_, ?_⟩
  · rw [(c4_submitted_total_checked [] [] 0 _).1]
    decide
  · rw [(c4_submitted_total_checked [] [] 0 _).2 (by decide)]
    decide

/-- C5: with no stored record a day's `total_due` is exactly the count
of master tasks evaluated due (with `submitted = false`,
`total_checked = 0`), with no master-count substitution when the due
count is zero; and when the stored record carries an `items` field,
`total_due` is the persisted list's length, overriding the computed
count. -/
theorem c5_total_due_policy (mi : List Item) (lc : Dict String) (d : Int) :
    ((summarizeDay mi lc d none).submitted = false
     ∧ (summarizeDay mi lc d none).total_checked = 0
     ∧ (summarizeDay mi lc d none).total_due = itemsDueCount mi lc d)
    ∧ ∀ (rec : RecordDoc) (l : List Item), rec.items = some l →
        (summarizeDay mi lc d (some rec)).total_due = l.length := by
  refine ⟨⟨rfl, rfl, rfl⟩, fun rec l hl => ?_⟩
  by_cases hemp : rec.checked.isEmpty <;>
    simp [summarizeDay, hl, hemp]

theorem c5_witness :
    (summarizeDay [⟨"A", some 5⟩] [("A", "2024-01-01")] (parseYMD "2024-01-02") none).total_due
      = itemsDueCount [⟨"A", some 5⟩] [("A", "2024-01-01")] (parseYMD "2024-01-02")
    ∧ itemsDueCount [⟨"A", some 5⟩] [("A", "2024-01-01")] (parseYMD "2024-01-02") = 0
    ∧ ({ date := none, items := some [], checked := [("A", [("u", ⟨TStamp.server, true, ""⟩)])],
         lastUpdated := none } : RecordDoc).items = some []
    ∧ (summarizeDay [⟨"A", some 5⟩] [("A", "2024-01-01")] (parseYMD "2024-01-02") (some
        { date := none, items := some [], checked := [("A", [("u", ⟨TStamp.server, true, ""⟩)])],
          lastUpdated := none })).total_due = 0 := by
  refine ⟨(c5_total_due_policy [⟨"A", some 5⟩] [("A", "2024-01-01")] (parseYMD "2024-01-02")).1.2.2,
    by decide, rfl, ?_⟩
  rw [(c5_total_due_policy [⟨"A", some 5⟩] [("A", "2024-01-01")] (parseYMD "2024-01-02")).2
    { date := none, items := some [], checked := [("A", [("u", ⟨TStamp.server, true, ""⟩)])],
      lastUpdated := none } [] rfl]
  rfl

/-- C6 counterexample: the day-summary dict the calendar handler files
for a date has no `period_due_counts` (and no `period_checks`) key at
all — here at the concrete input of an empty master list, empty history
and day ordinal 0 — so the claimed bucket maps do not exist. -/
theorem c6_counterexample :
    dget (DaySummary.toDict (summarizeDay [] [] 0 none)) "period_due_counts" = none
    ∧ dget (DaySummary.toDict (summarizeDay [] [] 0 none)) "period_checks" = none := by
  decide

/-- C6 amended: every day summary carries exactly the keys `submitted`,
`total_checked`, `users`, `total_due` — no `period_due_counts` or
`period_checks` buckets — and its `total_due` equals the persisted
`items` length when the record has an `items` field, else the freshly
computed due count. -/
theorem c6_amended (mi : List Item) (lc : Dict String) (d : Int)
    (docOpt : Option RecordDoc) :
    (DaySummary.toDict (summarizeDay mi lc d docOpt)).map Prod.fst
        = ["submitted", "total_checked", "users", "total_due"]
    ∧ dget (DaySummary.toDict (summarizeDay mi lc d docOpt)) "period_due_counts" = none
    ∧ dget (DaySummary.toDict (summarizeDay mi lc d docOpt)) "period_checks" = none
    ∧ (summarizeDay mi lc d docOpt).total_due
        = (match docOpt with
           | none => itemsDueCount mi lc d
           | some rec =>
             match rec.items with
             | some l => l.length
             | none => itemsDueCount mi lc d) := by
  refine ⟨rfl, rfl, rfl, ?_⟩
  cases docOpt with
  | none => rfl
  | some rec =>
    cases hitems : rec.items with
    | none =>
      by_cases hemp : rec.checked.isEmpty <;> simp [summarizeDay, hitems, hemp]
    | some l =>
      by_cases hemp : rec.checked.isEmpty <;> simp [summarizeDay, hitems, hemp]

theorem recHasNonEmptyB_iff (checked : Dict (Dict Entry)) (t : String) :
    recHasNonEmptyB checked t = true ↔ ∃ p ∈ checked, p.1 = t ∧ p.2 ≠ [] := by
  unfold recHasNonEmptyB
  rw [List.any_eq_true]
  constructor
  · rintro ⟨p, hp, hcond⟩
    rw [Bool.and_eq_true, Bool.not_eq_true'] at hcond
    refine ⟨p, hp, by simpa using hcond.1, ?_⟩
    intro he
    rw [he] at hcond
    simp at hcond
  · rintro ⟨p, hp, h1, h2⟩
    refine ⟨p, hp, ?_⟩
    rw [Bool.and_eq_true, Bool.not_eq_true']
    refine ⟨by simpa using h1, ?_⟩
    cases hq : p.2 with
    | nil => exact absurd hq h2
    | cons q qs => rfl

/-- C3 counterexample: a record whose only entry for task `T` has a
single user entry with `checked == false` still drives the index
(`fetch_all_last_completions` tests mere non-emptiness), while the
claimed checked-`true` condition — computed by the spec-faithful variant
— leaves `T` absent.  So the stated iff fails at this input. -/
theorem c3_counterexample :
    dget (fetchAllLastCompletions
      [("2024-01-02",
        { date := none, items := none,
          checked := [("T", [("u", ⟨TStamp.instant 0, false, ""⟩)])],
          lastUpdated := none })]) "T" = some "2024-01-02"
    ∧ dget (fetchAllLastCompletionsSpec
      [("2024-01-02",
        { date := none, items := none,
          checked := [("T", [("u", ⟨TStamp.instant 0, false, ""⟩)])],
          lastUpdated := none })]) "T" = none := by
  decide

/-- C3 amended: the completion index maps task-id `t` to date `d` iff
some record dated `d` has an entry for `t` with a *non-empty* user-map
(regardless of the `checked` flags), and `d` is the lexicographic
maximum such record date; task-ids with no such record are absent. -/
theorem c3_amended (records : Dict RecordDoc) (t d : String) :
    dget (fetchAllLastCompletions records) t = some d ↔
      ((∃ r ∈ records, r.1 = d ∧ ∃ p ∈ r.2.checked, p.1 = t ∧ p.2 ≠ [])
       ∧ ∀ r ∈ records, (∃ p ∈ r.2.checked, p.1 = t ∧ p.2 ≠ []) →
           pyStrGt r.1 d = false) := by
  rw [dget_fetchAllLastCompletions records t,
    foldMax_eq_some_iff (fun r => recHasNonEmptyB r.2.checked t) records none d]
  constructor
  · rintro ⟨h1, _, h3⟩
    rcases h1 with h1 | ⟨r, hr, hP, he⟩
    · cases h1
    · exact ⟨⟨r, hr, he, (recHasNonEmptyB_iff r.2.checked t).mp hP⟩,
        fun r' hr' hg => h3 r' hr' ((recHasNonEmptyB_iff r'.2.checked t).mpr hg)⟩
  · rintro ⟨⟨r, hr, he, hg⟩, hub⟩
    refine ⟨Or.inr ⟨r, hr, (recHasNonEmptyB_iff r.2.checked t).mpr hg, he⟩, ?_, ?_⟩
    · rintro x hx
      cases hx
    · intro r' hr' hP
      exact hub r' hr' ((recHasNonEmptyB_iff r'.2.checked t).mp hP)

theorem c3_witness :
    dget (fetchAllLastCompletions
      [("2024-01-01",
        { date := none, items := none,
          checked := [("T", [("u", ⟨TStamp.instant 0, true, ""⟩)])],
          lastUpdated := none }),
       ("2024-01-05",
        { date := none, items := none,
          checked := [("T", [("u", ⟨TStamp.instant 1, true, ""⟩)])],
          lastUpdated := none })]) "T" = some "2024-01-05" :=
  (c3_amended
    [("2024-01-01",
      { date := none, items := none,
        checked := [("T", [("u", ⟨TStamp.instant 0, true, ""⟩)])],
        lastUpdated := none }),
     ("2024-01-05",
      { date := none, items := none,
        checked := [("T", [("u", ⟨TStamp.instant 1, true, ""⟩)])],
        lastUpdated := none })] "T" "2024-01-05").mpr
    ⟨by decide, by decide⟩

/-- C7: the calendar summary iterates exactly the dates from `start` to
`end` inclusive, one calendar day at a time, each day summarised against
the single completion index built from the whole history before the
loop; a one-day range therefore yields exactly the one-entry map with
that day's summary. -/
theorem c7_range_iteration (mi : List Item) (records : Dict RecordDoc)
    (s e : Int) (hnd : ((rangeDates s e).map formatYMD).Nodup) :
    (getCalendarSummary mi records s e).summaryData
      = (rangeDates s e).map (fun d => (formatYMD d,
          summarizeDay mi (fetchAllLastCompletions records) d (dget records (formatYMD d))))
    ∧ (s = e → (getCalendarSummary mi records s e).summaryData
        = [(formatYMD s,
            summarizeDay mi (fetchAllLastCompletions records) s (dget records (formatYMD s)))]) := by
  have hmain : (getCalendarSummary mi records s e).summaryData
      = (rangeDates s e).map (fun d => (formatYMD d,
          summarizeDay mi (fetchAllLastCompletions records) d (dget records (formatYMD d)))) := by
    show calendarLoop mi (fetchAllLastCompletions records) records e s [] = _
    rw [calendarLoop_eq mi (fetchAllLastCompletions records) records e
      ((e + 1 - s).toNat) s rfl [] (fun d _ => rfl) hnd]
    rfl
  refine ⟨hmain, fun hse => ?_⟩
  subst hse
  rw [hmain, rangeDates_self]
  rfl

theorem c7_witness :
    ((rangeDates 19723 19723).map formatYMD).Nodup
    ∧ (getCalendarSummary [] [] 19723 19723).summaryData
        = [("2024-01-01", summarizeDay [] [] 19723 none)] := by
  refine ⟨by decide, ?_⟩
  rw [(c7_range_iteration [] [] 19723 19723 (by decide)).2 rfl]
  decide

theorem toggleChecked_absent (checked : Dict (Dict Entry)) (item user note : String)
    (hm : dget checked item = none) :
    toggleChecked checked item user note
      = checked ++ [(item, [(user, freshEntry note)])] := by
  have hdm : dmem checked item = false := by unfold dmem; rw [hm]; rfl
  simp only [toggleChecked, hdm, Bool.not_false, if_true, dget_dset_self,
    Option.getD_some]
  rw [show dmem ([] : Dict Entry) user = false from rfl]
  simp only [Bool.false_eq_true, if_false]
  rw [dset_dset, dset_eq_append _ hm]
  rfl

theorem toggleChecked_user_absent (checked : Dict (Dict Entry)) (um : Dict Entry)
    (item user note : String) (hm : dget checked item = some um)
    (hu : dget um user = none) :
    toggleChecked checked item user note
      = dset checked item (um ++ [(user, freshEntry note)]) := by
  have hdm : dmem checked item = true := by unfold dmem; rw [hm]; rfl
  have hdu : dmem um user = false := by unfold dmem; rw [hu]; rfl
  simp only [toggleChecked, hdm, Bool.not_true, Bool.false_eq_true, if_false, hm,
    Option.getD_some, hdu]
  rw [dset_eq_append _ hu]

theorem toggleChecked_user_present (checked : Dict (Dict Entry)) (um : Dict Entry)
    (item user note : String) (hm : dget checked item = some um)
    (hu : dmem um user = true) :
    toggleChecked checked item user note
      = (if (derase um user).isEmpty then derase checked item
         else dset checked item (derase um user)) := by
  have hdm : dmem checked item = true := by unfold dmem; rw [hm]; rfl
  simp only [toggleChecked, hdm, Bool.not_true, Bool.false_eq_true, if_false, hm,
    Option.getD_some, hu, if_true]

/-- C8 counterexample: toggling an already-present user entry twice
does not restore the original checked map — the entry is re-created with
the fresh timestamp sentinel and the request's note, here erasing the
stored note `"old"` and the concrete timestamp. -/
theorem c8_counterexample :
    toggleChecked (toggleChecked
        [("t", [("u", ⟨TStamp.instant 5, true, "old"⟩)])] "t" "u" "")
        "t" "u" ""
      ≠ [("t", [("u", ⟨TStamp.instant 5, true, "old"⟩)])] := by
  decide

/-- C8 amended: toggling the same `(date, item_id, user)` twice restores
the day's checked map exactly whenever the user's entry is absent
beforehand and `item_id` does not map to an (unreachable) empty
user-map: an absent `item_id` key gains `{checked: true, timestamp,
note}` and is removed entirely by the second toggle; an existing
non-empty user-map without that user gains the entry and loses it again.
When the user entry already exists, the pair of toggles instead replaces
it by a fresh entry (see the counterexample). -/
theorem c8_toggle_involution (checked : Dict (Dict Entry))
    (item user note1 note2 : String)
    (hnd : (checked.map Prod.fst).Nodup)
    (hcase : (match dget checked item with
              | none => true
              | some um => !(dmem um user) && !(um.isEmpty)) = true) :
    toggleChecked (toggleChecked checked item user note1) item user note2
      = checked := by
  cases hm : dget checked item with
  | none =>
    rw [toggleChecked_absent checked item user note1 hm]
    have hget1 : dget (checked ++ [(item, [(user, freshEntry note1)])]) item
        = some [(user, freshEntry note1)] := by
      rw [dget_append, hm]
      simp [dget]
    rw [toggleChecked_user_present _ _ item user note2 hget1
      (by unfold dmem; simp [dget])]
    rw [show derase ([(user, freshEntry note1)] : Dict Entry) user = [] from by
      unfold derase; simp]
    simp only [List.isEmpty_nil, if_true]
    exact derase_append_last checked item _ hm
  | some um =>
    rw [hm] at hcase
    simp only [Bool.and_eq_true, Bool.not_eq_true'] at hcase
    obtain ⟨hu, hemp⟩ := hcase
    have hune : dget um user = none := by
      unfold dmem at hu
      cases hx : dget um user with
      | none => rfl
      | some w => rw [hx] at hu; cases hu
    rw [toggleChecked_user_absent checked um item user note1 hm hune]
    have hget1 : dget (dset checked item (um ++ [(user, freshEntry note1)])) item
        = some (um ++ [(user, freshEntry note1)]) := dget_dset_self _ _ _
    have humem : dmem (um ++ [(user, freshEntry note1)]) user = true := by
      unfold dmem
      rw [dget_append, hune]
      simp [dget]
    rw [toggleChecked_user_present _ _ item user note2 hget1 humem]
    rw [derase_append_last um user _ hune]
    have humne : um.isEmpty = false := hemp
    rw [humne]
    simp only [Bool.false_eq_true, if_false]
    rw [dset_dset]
    exact dset_dget_eq_self checked item um hnd hm

theorem c8_witness :
    ((([("t", [("v", ⟨TStamp.instant 1, true, "x"⟩)])] : Dict (Dict Entry)).map Prod.fst).Nodup)
    ∧ ((match dget ([("t", [("v", ⟨TStamp.instant 1, true, "x"⟩)])] : Dict (Dict Entry)) "t" with
        | none => true
        | some um => !(dmem um "u") && !(um.isEmpty)) = true)
    ∧ toggleChecked (toggleChecked
        [("t", [("v", ⟨TStamp.instant 1, true, "x"⟩)])] "t" "u" "n1") "t" "u" "n2"
      = [("t", [("v", ⟨TStamp.instant 1, true, "x"⟩)])] :=
  ⟨by decide, by decide,
   c8_toggle_involution [("t", [("v", ⟨TStamp.instant 1, true, "x"⟩)])]
     "t" "u" "n1" "n2" (by decide) (by decide)⟩

/-- C10: toggle writes only `checked == true` entries — the empty map
satisfies the all-true invariant, `toggle_check`'s map transformation
preserves it, every toggle-produced state satisfies it, on such states a
task's user-map is non-empty iff some user entry is `checked == true`,
and consequently the completion index's non-empty test computes exactly
the any-user-checked-`true` index on toggle-reachable records. -/
theorem c10_toggle_writes_only_true :
    (∀ (m : Dict (Dict Entry)) (i u n : String), entriesAllChecked m = true →
        entriesAllChecked (toggleChecked m i u n) = true)
    ∧ (∀ ops : List ToggleOp, entriesAllChecked (checkedOfOps ops) = true)
    ∧ (∀ m : Dict (Dict Entry), entriesAllChecked m = true →
        ∀ p ∈ m, (p.2 ≠ [] ↔ ∃ q ∈ p.2, q.2.checked = true))
    ∧ (∀ records : Dict RecordDoc,
        (∀ r ∈ records, entriesAllChecked r.2.checked = true) →
        fetchAllLastCompletions records = fetchAllLastCompletionsSpec records) :=
  ⟨toggleChecked_preserves, checkedOfOps_allChecked, nonEmpty_iff_anyChecked,
   fetch_eq_spec⟩

theorem c10_witness :
    entriesAllChecked (toggleChecked [] "T" "u" "note") = true
    ∧ fetchAllLastCompletions
        [("2024-01-01",
          { date := none, items := none,
            checked := toggleChecked [] "T" "u" "note", lastUpdated := none })]
      = fetchAllLastCompletionsSpec
        [("2024-01-01",
          { date := none, items := none,
            checked := toggleChecked [] "T" "u" "note", lastUpdated := none })] :=
  ⟨c10_toggle_writes_only_true.1 [] "T" "u" "note" rfl,
   c10_toggle_writes_only_true.2.2.2
     [("2024-01-01",
       { date := none, items := none,
         checked := toggleChecked [] "T" "u" "note", lastUpdated := none })]
     (by decide)⟩
